import Mathlib

/-!
Shallow embedding of the response-extraction logic of the Verificador-IA
repository (file `src/unnamed/part_000`, a TypeScript service module).

Strings are modelled as `List Char`.  The JavaScript operations used by the
source are modelled faithfully:
  * `String.prototype.replace(/pat/g, '')` with a literal pattern
    becomes `removeAll pat s` (left-to-right, non-overlapping scan);
  * `indexOf` / `lastIndexOf` become `firstIdx` / `lastIdx`;
  * `substring(a, b)` becomes `substringJS` (clamping and argument
    swapping as in JavaScript);
  * `JSON.parse` becomes `jsonParse`, a fuel-driven iterative parser for
    the JSON grammar accepted by `JSON.parse` (whitespace, `null`,
    booleans, numbers without leading zeros, strings with the standard
    escapes, arrays, objects); failure is `none` (the thrown
    `SyntaxError`);
  * the falsy-default `x || d` on strings becomes `jsOrStr` (empty string
    counts as falsy).
-/

namespace Verificador

abbrev Str := List Char

def openBrace : Char := '\x7b'

def closeBrace : Char := '\x7d'

/-- Boolean "is a list-prefix of" test (used to model literal pattern
matching of the global regex replace). -/
def isPref : Str → Str → Bool
  | [], _ => true
  | _ :: _, [] => false
  | a :: as, b :: bs => a == b && isPref as bs

/-- Fuel-driven worker for `removeAll`; the fuel is always instantiated
with the length of the list, so the `0`-fuel branch is unreachable. -/
def removeAllF (pat : Str) : Nat → Str → Str
  | _, [] => []
  | 0, s => s
  | Nat.succ f, c :: rest =>
    if isPref pat (c :: rest) then
      removeAllF pat f (List.drop (pat.length - 1) rest)
    else
      c :: removeAllF pat f rest

/-- Model of `s.replace(/pat/g, '')` for a literal pattern `pat`:
scan left to right, deleting each non-overlapping occurrence. -/
def removeAll (pat s : Str) : Str := removeAllF pat s.length s

def fenceJson : Str := "```json".data

def fenceBare : Str := "```".data

/-- Line 68 of the source:
`jsonText.replace(/```json/g, '').replace(/```/g, '')`. -/
def cleanFences (s : Str) : Str := removeAll fenceBare (removeAll fenceJson s)

/-- Model of `String.prototype.indexOf(ch)` (as an `Option` instead of `-1`). -/
def firstIdx (ch : Char) : Str → Option Nat
  | [] => none
  | c :: r => if c = ch then some 0 else (firstIdx ch r).map (· + 1)

/-- Model of `String.prototype.lastIndexOf(ch)`. -/
def lastIdx (ch : Char) : Str → Option Nat
  | [] => none
  | c :: r =>
    match lastIdx ch r with
    | some k => some (k + 1)
    | none => if c = ch then some 0 else none

/-- Model of `String.prototype.substring(a, b)`: swaps its arguments when
`a > b` and clamps to the string, exactly as in JavaScript. -/
def substringJS (s : Str) (a b : Nat) : Str :=
  (s.take (max a b)).drop (min a b)

/-- Lines 71–75 of the source: slice to the span from the first `{` to the
last `}` when both exist, otherwise keep the whole text. -/
def sliceBraces (s : Str) : Str :=
  match firstIdx openBrace s, lastIdx closeBrace s with
  | some i, some j => substringJS s i (j + 1)
  | _, _ => s

/-- Model of the string-typed `x || d` idiom (`""` is falsy in JavaScript). -/
def jsOrStr (x : Option Str) (d : Str) : Str :=
  match x with
  | some t => if t = [] then d else t
  | none => d

/-- JSON values, as produced by `JSON.parse`.  A numeric literal with
integer part / fraction / exponent is represented unreduced as
`num m e` meaning `m * 10 ^ e`; object fields are kept in source order
(lookup takes the last binding, as JavaScript property assignment does). -/
inductive Json where
  | null : Json
  | bool (b : Bool) : Json
  | num (m : Int) (e : Int) : Json
  | str (s : Str) : Json
  | arr (elems : List Json) : Json
  | obj (fields : List (Str × Json)) : Json

def isWs (c : Char) : Bool := c = ' ' || c = '\t' || c = '\n' || c = '\r'

def skipWs : Str → Str
  | [] => []
  | c :: r => if isWs c then skipWs r else c :: r

def hexVal (c : Char) : Option Nat :=
  if '0' ≤ c ∧ c ≤ '9' then some (c.toNat - 48)
  else if 'a' ≤ c ∧ c ≤ 'f' then some (c.toNat - 87)
  else if 'A' ≤ c ∧ c ≤ 'F' then some (c.toNat - 55)
  else none

/-- Body of a JSON string literal, after the opening quote: returns the
decoded characters and the input remaining after the closing quote.
Raw control characters and unknown escapes are rejected, as by
`JSON.parse`.  Fuel is instantiated with the input length. -/
def parseStrBody : Nat → Str → Option (Str × Str)
  | _, [] => none
  | 0, _ => none
  | Nat.succ f, c :: r =>
    if c = '"' then some ([], r)
    else if c = '\\' then
      match r with
      | [] => none
      | e :: r2 =>
        let dec : Option (Char × Str) :=
          if e = '"' then some ('"', r2)
          else if e = '\\' then some ('\\', r2)
          else if e = '/' then some ('/', r2)
          else if e = 'b' then some ('\x08', r2)
          else if e = 'f' then some ('\x0c', r2)
          else if e = 'n' then some ('\n', r2)
          else if e = 'r' then some ('\r', r2)
          else if e = 't' then some ('\t', r2)
          else if e = 'u' then
            match r2 with
            | h1 :: h2 :: h3 :: h4 :: r3 =>
              match hexVal h1, hexVal h2, hexVal h3, hexVal h4 with
              | some a, some b, some c', some d =>
                some (Char.ofNat (((a * 16 + b) * 16 + c') * 16 + d), r3)
              | _, _, _, _ => none
            | _ => none
          else none
        match dec with
        | some (ch, rest) => (parseStrBody f rest).map (fun p => (ch :: p.1, p.2))
        | none => none
    else if c.toNat < 32 then none
    else (parseStrBody f r).map (fun p => (c :: p.1, p.2))

def digitVal (c : Char) : Option Nat :=
  if '0' ≤ c ∧ c ≤ '9' then some (c.toNat - 48) else none

/-- Longest digit prefix of the input, with the rest. -/
def takeDigits : Str → (List Nat × Str)
  | [] => ([], [])
  | c :: r =>
    match digitVal c with
    | some d => ((takeDigits r).1.cons d, (takeDigits r).2)
    | none => ([], c :: r)

def digitsToNat (ds : List Nat) : Nat := ds.foldl (fun a d => a * 10 + d) 0

/-- JSON number grammar as accepted by `JSON.parse`: optional minus sign,
integer part with no leading zeros, optional fraction, optional exponent.
Returns mantissa and power-of-ten exponent. -/
def parseNumber (s : Str) : Option ((Int × Int) × Str) :=
  let (neg, s1) : (Bool × Str) :=
    match s with
    | '-' :: r => (true, r)
    | _ => (false, s)
  match takeDigits s1 with
  | ([], _) => none
  | (d :: ds, rest) =>
    if d = 0 ∧ ds ≠ [] then none
    else
      let fracStep : Option (List Nat × Str) :=
        match rest with
        | '.' :: r2 =>
          match takeDigits r2 with
          | ([], _) => none
          | (fs, rest2) => some (fs, rest2)
        | _ => some ([], rest)
      match fracStep with
      | none => none
      | some (fs, rest2) =>
        let expStep : Option (Int × Str) :=
          match rest2 with
          | c :: r3 =>
            if c = 'e' ∨ c = 'E' then
              let (esgn, r4) : (Bool × Str) :=
                match r3 with
                | '+' :: r5 => (false, r5)
                | '-' :: r5 => (true, r5)
                | _ => (false, r3)
              match takeDigits r4 with
              | ([], _) => none
              | (es, rest3) =>
                some ((if esgn then -(digitsToNat es : Int) else (digitsToNat es : Int)), rest3)
            else some (0, c :: r3)
          | [] => some (0, [])
        match expStep with
        | none => none
        | some (ex, rest3) =>
          let mag : Nat := digitsToNat (d :: ds ++ fs)
          let m : Int := if neg then -(mag : Int) else (mag : Int)
          some ((m, ex - (fs.length : Int)), rest3)

/-- Consume a literal continuation (`rue`, `alse`, `ull`). -/
def parseLit (lit s : Str) : Option Str :=
  if isPref lit s then some (s.drop lit.length) else none

/-- Stack frames of the iterative JSON parser: a partially read array, or
a partially read object together with the key whose value is pending. -/
inductive Frame where
  | arrF (acc : List Json) : Frame
  | objF (acc : List (Str × Json)) (key : Str) : Frame

/-- Iterative parser for the `JSON.parse` grammar.  The `Option Json`
argument distinguishes "expecting a value" (`none`) from "a value was
just completed" (`some v`).  Each recursive call consumes at least one
input character, so fuel `length + 2` never runs out. -/
def parseLoop : Nat → List Frame → Option Json → Str → Option (Json × Str)
  | 0, _, _, _ => none
  | Nat.succ f, st, none, s =>
    match skipWs s with
    | [] => none
    | c :: r =>
      if c = openBrace then
        match skipWs r with
        | [] => none
        | c2 :: r2 =>
          if c2 = closeBrace then parseLoop f st (some (Json.obj [])) r2
          else if c2 = '"' then
            match parseStrBody r2.length r2 with
            | some (k, r3) =>
              match skipWs r3 with
              | ':' :: r4 => parseLoop f (Frame.objF [] k :: st) none r4
              | _ => none
            | none => none
          else none
      else if c = '[' then
        match skipWs r with
        | [] => none
        | c2 :: r2 =>
          if c2 = ']' then parseLoop f st (some (Json.arr [])) r2
          else parseLoop f (Frame.arrF [] :: st) none (c2 :: r2)
      else if c = '"' then
        match parseStrBody r.length r with
        | some (v, r2) => parseLoop f st (some (Json.str v)) r2
        | none => none
      else if c = 't' then
        match parseLit "rue".data r with
        | some r2 => parseLoop f st (some (Json.bool true)) r2
        | none => none
      else if c = 'f' then
        match parseLit "alse".data r with
        | some r2 => parseLoop f st (some (Json.bool false)) r2
        | none => none
      else if c = 'n' then
        match parseLit "ull".data r with
        | some r2 => parseLoop f st (some Json.null) r2
        | none => none
      else
        match parseNumber (c :: r) with
        | some ((m, e), r2) => parseLoop f st (some (Json.num m e)) r2
        | none => none
  | Nat.succ f, st, some v, s =>
    match st with
    | [] => some (v, s)
    | Frame.arrF acc :: st' =>
      match skipWs s with
      | [] => none
      | c :: r =>
        if c = ',' then parseLoop f (Frame.arrF (acc ++ [v]) :: st') none r
        else if c = ']' then parseLoop f st' (some (Json.arr (acc ++ [v]))) r
        else none
    | Frame.objF acc k :: st' =>
      match skipWs s with
      | [] => none
      | c :: r =>
        if c = ',' then
          match skipWs r with
          | '"' :: r2 =>
            match parseStrBody r2.length r2 with
            | some (k2, r3) =>
              match skipWs r3 with
              | ':' :: r4 => parseLoop f (Frame.objF (acc ++ [(k, v)]) k2 :: st') none r4
              | _ => none
            | none => none
          | _ => none
        else if c = closeBrace then
          parseLoop f st' (some (Json.obj (acc ++ [(k, v)]))) r
        else none

/-- Model of `JSON.parse`: parse one value and require only trailing
whitespace after it; `none` models the thrown `SyntaxError`. -/
def jsonParse (s : Str) : Option Json :=
  match parseLoop (s.length + 2) [] none s with
  | some (v, rest) => if skipWs rest = [] then some v else none
  | none => none

/-- Lines 68–77 of `analyzeUrl`: strip fences, slice to the brace span,
and `JSON.parse` the candidate.  `none` is the thrown parse error. -/
def extractText (t : Str) : Option Json :=
  jsonParse (sliceBraces (cleanFences t))

/-- Lines 65–77 of `analyzeUrl`, starting from the optional response
text: `response.text || "\x7b\x7d"` followed by `extractText`. -/
def extractJson (text : Option Str) : Option Json :=
  extractText (jsOrStr text "\x7b\x7d".data)

/-- Last-binding-wins association lookup, matching JavaScript property
assignment semantics for duplicate keys. -/
def lookupLast : List (Str × Json) → Str → Option Json
  | [], _ => none
  | (k', v) :: rest, k =>
    match lookupLast rest k with
    | some r => some r
    | none => if k' = k then some v else none

/-- Field access on a parsed value (`none` on non-objects and missing
fields, like `undefined`). -/
def getField (j : Json) (k : Str) : Option Json :=
  match j with
  | Json.obj fields => lookupLast fields k
  | _ => none

/-- A `web` reference inside a grounding chunk (`uri` and `title` both
optional at runtime). -/
structure WebRef where
  uri : Option Str
  title : Option Str
deriving DecidableEq

/-- One entry of `groundingMetadata.groundingChunks`. -/
structure Chunk where
  web : Option WebRef
deriving DecidableEq

/-- An element of `result.sources`.  `uri` stays optional: `web!.uri!` is
a type assertion only, so a missing uri flows through as `undefined`. -/
structure Source where
  uri : Option Str
  title : Str
deriving DecidableEq

/-- Lines 81–84:
`groundingChunks.map(c => c.web).filter(w => w !== undefined)`
`.map(w => (\x7b uri: w!.uri!, title: w!.title || 'Fuente' \x7d))`.
The falsy `||` also replaces an empty title. -/
def mapChunksToSources (chunks : List Chunk) : List Source :=
  ((chunks.map Chunk.web).filterMap id).map
    (fun w =>
      { uri := w.uri
        title :=
          match w.title with
          | some t => if t = [] then "Fuente".data else t
          | none => "Fuente".data })

/-- The hardcoded object returned by the `catch` block of `analyzeUrl`
(lines 90–96). -/
def fallbackJson : Json :=
  Json.obj
    [ ("isAiGenerated".data, Json.bool false)
    , ("confidenceScore".data, Json.num 0 0)
    , ("verdict".data, Json.str "Mixed/Uncertain".data)
    , ("reasoning".data, Json.str "No se pudo analizar el enlace correctamente. Es posible que el contenido sea inaccesible o la respuesta del modelo no fue válida.".data)
    , ("indicators".data, Json.arr [Json.str "Error de análisis".data]) ]

/-- Observable outcome of `analyzeUrl`: the parsed (or fallback) object,
plus the value assigned to `result.sources` when the assignment on
line 81 runs (`none` when `groundingChunks` is absent, in which case any
`sources` field of the parsed object is untouched inside `json`). -/
structure UrlResult where
  json : Json
  sources : Option (List Source)

/-- Can a property be assigned on this `JSON.parse` result?  In strict
mode (ES modules) `result.sources = …` succeeds only on objects and
arrays; on `null`, booleans, numbers and strings it throws a
`TypeError`. -/
def jsObjectLike : Json → Bool
  | Json.obj _ => true
  | Json.arr _ => true
  | _ => false

/-- Lines 65–97 of `analyzeUrl`, as a function of the two response parts
this code inspects (the text and the optional grounding chunks): on any
extraction failure the `catch` returns the fallback object; otherwise
`result.sources` is assigned exactly when `groundingChunks` is truthy —
which includes the empty list, since `[]` is truthy in JavaScript.  When
the parsed result is not object-like, that very assignment throws, the
`catch` fires, and the fallback is returned instead. -/
def analyzeUrl (text : Option Str) (chunks : Option (List Chunk)) : UrlResult :=
  match extractJson text with
  | some j =>
    match chunks with
    | some l =>
      if jsObjectLike j then { json := j, sources := some (mapChunksToSources l) }
      else { json := fallbackJson, sources := none }
    | none => { json := j, sources := none }
  | none => { json := fallbackJson, sources := none }

/-- Line 112 and the catch of lines 113–116 of `analyzeText`:
`JSON.parse(response.text || "\x7b\x7d")`, with any failure rethrown as a
generic error message that does not carry the raw text. -/
def analyzeText (text : Option Str) : Except Str Json :=
  match jsonParse (jsOrStr text "\x7b\x7d".data) with
  | some j => Except.ok j
  | none => Except.error "Error al analizar texto.".data

/-- Line 136 and the catch of `analyzeImage` (same shape as `analyzeText`). -/
def analyzeImage (text : Option Str) : Except Str Json :=
  match jsonParse (jsOrStr text "\x7b\x7d".data) with
  | some j => Except.ok j
  | none => Except.error "Error al analizar imagen.".data

/-- Line 160 and the catch of `analyzeVideo` (same shape as `analyzeText`). -/
def analyzeVideo (text : Option Str) : Except Str Json :=
  match jsonParse (jsOrStr text "\x7b\x7d".data) with
  | some j => Except.ok j
  | none => Except.error "Error al analizar video.".data

/-- The backtick character. -/
def tick : Char := Char.ofNat 96

/-- The language-tag part of the json fence: `fenceJson = fenceBare ++ tagJson`. -/
def tagJson : Str := "json".data

/-- Does `pat` occur as a contiguous substring of the input? -/
def hasOccur (pat : Str) : Str → Bool
  | [] => isPref pat []
  | c :: r => isPref pat (c :: r) || hasOccur pat r

/-- The clean payload of the spec's worked example. -/
def examplePayload : Str :=
  "\x7b\"isAiGenerated\":true,\"confidenceScore\":87,\"verdict\":\"AI\",\"reasoning\":\"r\",\"indicators\":[\"a\",\"b\"]\x7d".data

/-- The spec's worked example: the payload inside a json code fence. -/
def exampleFenced : Str := "```json\n".data ++ examplePayload ++ "\n```".data

/-- The parse of `examplePayload`. -/
def exampleJson : Json :=
  Json.obj
    [ ("isAiGenerated".data, Json.bool true)
    , ("confidenceScore".data, Json.num 87 0)
    , ("verdict".data, Json.str "AI".data)
    , ("reasoning".data, Json.str "r".data)
    , ("indicators".data, Json.arr [Json.str "a".data, Json.str "b".data]) ]

/-- `examplePayload` without its outer braces (so that
`examplePayload = openBrace :: (examplePayloadMid ++ [closeBrace])`). -/
def examplePayloadMid : Str :=
  "\"isAiGenerated\":true,\"confidenceScore\":87,\"verdict\":\"AI\",\"reasoning\":\"r\",\"indicators\":[\"a\",\"b\"]".data

/-- The spec's prose-wrapped variant of the worked example. -/
def exampleWrapped : Str :=
  "Sure, here is the analysis:\n".data ++ "```json\n".data ++ examplePayload
    ++ "\n```\n".data ++ "Let me know if you need more.".data

/-- A syntactically valid payload whose `verdict` is the unrecognized
literal `Robot`. -/
def robotPayload : Str :=
  "\x7b\"isAiGenerated\":true,\"confidenceScore\":50,\"verdict\":\"Robot\",\"reasoning\":\"r\",\"indicators\":[]\x7d".data

/-- The parse of `robotPayload`. -/
def robotJson : Json :=
  Json.obj
    [ ("isAiGenerated".data, Json.bool true)
    , ("confidenceScore".data, Json.num 50 0)
    , ("verdict".data, Json.str "Robot".data)
    , ("reasoning".data, Json.str "r".data)
    , ("indicators".data, Json.arr []) ]

/-- A syntactically valid payload with no `confidenceScore` field. -/
def noScorePayload : Str :=
  "\x7b\"isAiGenerated\":true,\"verdict\":\"AI\",\"reasoning\":\"r\",\"indicators\":[]\x7d".data

/-- The parse of `noScorePayload`. -/
def noScoreJson : Json :=
  Json.obj
    [ ("isAiGenerated".data, Json.bool true)
    , ("verdict".data, Json.str "AI".data)
    , ("reasoning".data, Json.str "r".data)
    , ("indicators".data, Json.arr []) ]

theorem isPref_iff : ∀ (pat s : Str), isPref pat s = true ↔ ∃ b, s = pat ++ b
  | [], s => by simp [isPref]
  | a :: as, [] => by simp [isPref]
  | a :: as, c :: cs => by
    simp only [isPref, Bool.and_eq_true, beq_iff_eq, List.cons_append, List.cons.injEq]
    constructor
    · rintro ⟨rfl, h⟩
      obtain ⟨b, rfl⟩ := (isPref_iff as cs).1 h
      exact ⟨b, rfl, rfl⟩
    · rintro ⟨b, rfl, rfl⟩
      exact ⟨rfl, (isPref_iff as _).2 ⟨b, rfl⟩⟩

theorem isPref_head_ne (m : Char) (ps u : Str) (h : u.head? ≠ some m) :
    isPref (m :: ps) u = false := by
  match u with
  | [] => rfl
  | c :: r =>
    simp only [List.head?_cons, ne_eq, Option.some.injEq] at h
    simp only [isPref, Bool.and_eq_false_iff, beq_eq_false_iff_ne, ne_eq]
    exact Or.inl fun hmc => h hmc.symm

theorem isPref_append_both (a y x : Str) : isPref (a ++ y) (a ++ x) = isPref y x := by
  induction a with
  | nil => rfl
  | cons c r ih => simp [isPref, ih]

theorem isPref_stop (c : Char) : ∀ (pat tag X : Str), c ∉ pat → isPref pat tag = false →
    isPref pat (tag ++ c :: X) = false
  | [], tag, X, _, h => by simp [isPref] at h
  | p :: ps, [], X, hc, _ => by
    have : p ≠ c := fun h => hc (h ▸ List.mem_cons_self p ps)
    simp [isPref, this]
  | p :: ps, t :: tag', X, hc, h => by
    simp only [isPref, Bool.and_eq_false_iff, beq_eq_false_iff_ne, ne_eq] at h
    rcases h with h | h
    · simp [isPref, h]
    · have hcps : c ∉ ps := fun hm => hc (List.mem_cons_of_mem p hm)
      simp [isPref, isPref_stop c ps tag' X hcps h]

theorem removeAllF_fuel (pat : Str) : ∀ (f g : Nat) (s : Str), s.length ≤ f →
    s.length ≤ g → removeAllF pat f s = removeAllF pat g s := by
  intro f
  induction f with
  | zero =>
    intro g s hf _
    have : s = [] := List.length_eq_zero.mp (Nat.le_zero.mp hf)
    subst this
    cases g <;> rfl
  | succ f ih =>
    intro g s hf hg
    match s, g with
    | [], g => cases g <;> rfl
    | c :: rest, 0 => simp at hg
    | c :: rest, Nat.succ g' =>
      simp only [removeAllF]
      have hlen : rest.length ≤ f := by simp at hf; omega
      have hlen' : rest.length ≤ g' := by simp at hg; omega
      by_cases h : isPref pat (c :: rest) = true
      · simp only [h, if_true]
        exact ih g' _ (by simp [List.length_drop]; omega) (by simp [List.length_drop]; omega)
      · simp only [Bool.not_eq_true] at h
        simp only [h, Bool.false_eq_true, if_false]
        exact congrArg _ (ih g' rest hlen hlen')

theorem removeAll_cons_neg (pat : Str) (c : Char) (r : Str)
    (h : isPref pat (c :: r) = false) : removeAll pat (c :: r) = c :: removeAll pat r := by
  simp only [removeAll, List.length_cons, removeAllF, h, Bool.false_eq_true, if_false]

theorem removeAll_cons_pos (pat : Str) (c : Char) (r : Str)
    (h : isPref pat (c :: r) = true) :
    removeAll pat (c :: r) = removeAll pat (List.drop (pat.length - 1) r) := by
  simp only [removeAll, List.length_cons, removeAllF, h, if_true]
  exact removeAllF_fuel pat r.length _ _
    (by rw [List.length_drop]; exact Nat.sub_le _ _) (Nat.le_refl _)

theorem removeAll_self_append (p : Char) (pt rest : Str) :
    removeAll (p :: pt) ((p :: pt) ++ rest) = removeAll (p :: pt) rest := by
  have h : isPref (p :: pt) (p :: (pt ++ rest)) = true :=
    (isPref_iff _ _).2 ⟨rest, by simp⟩
  have h2 := removeAll_cons_pos (p :: pt) p (pt ++ rest) h
  simp only [List.cons_append]
  rw [h2]
  congr 1
  simp only [List.length_cons, Nat.add_sub_cancel]
  exact List.drop_left' rfl

theorem removeAll_append_clean (p : Char) (pt : Str) :
    ∀ (a rest : Str), p ∉ a →
    removeAll (p :: pt) (a ++ rest) = a ++ removeAll (p :: pt) rest
  | [], rest, _ => rfl
  | c :: a', rest, h => by
    have hcp : ¬ ((c :: (a' ++ rest)).head? = some p) := by
      simp only [List.head?_cons, Option.some.injEq]
      exact fun hc => h (hc ▸ List.mem_cons_self c a')
    rw [List.cons_append, removeAll_cons_neg _ _ _ (isPref_head_ne p pt _ hcp),
      removeAll_append_clean p pt a' rest (fun hm => h (List.mem_cons_of_mem c hm))]
    exact (List.cons_append c a' _).symm

theorem hasOccur_iff (pat : Str) : ∀ (s : Str),
    hasOccur pat s = true ↔ ∃ a b, s = a ++ pat ++ b
  | [] => by
    simp only [hasOccur, isPref_iff]
    constructor
    · rintro ⟨b, h⟩
      exact ⟨[], b, h⟩
    · rintro ⟨a, b, h⟩
      rcases List.append_eq_nil.mp (h.symm) with ⟨h1, h2⟩
      rcases List.append_eq_nil.mp h1 with ⟨rfl, rfl⟩
      exact ⟨b, h2.symm ▸ rfl⟩
  | c :: r => by
    simp only [hasOccur, Bool.or_eq_true, isPref_iff, hasOccur_iff pat r]
    constructor
    · rintro (⟨b, h⟩ | ⟨a, b, h⟩)
      · exact ⟨[], b, by simpa using h⟩
      · exact ⟨c :: a, b, by simp [h]⟩
    · rintro ⟨a, b, h⟩
      match a with
      | [] => exact Or.inl ⟨b, by simpa using h⟩
      | a0 :: a' =>
        simp only [List.cons_append, List.cons.injEq] at h
        exact Or.inr ⟨a', b, h.2⟩

theorem removeAll_of_noOccur (pat : Str) : ∀ (s : Str), hasOccur pat s = false →
    removeAll pat s = s
  | [], _ => rfl
  | c :: r, h => by
    simp only [hasOccur, Bool.or_eq_false_iff] at h
    rw [removeAll_cons_neg _ _ _ h.1, removeAll_of_noOccur pat r h.2]

theorem hasOccur_false_of_not_mem (p : Char) (pt s : Str) (h : p ∉ s) :
    hasOccur (p :: pt) s = false := by
  by_contra hc
  simp only [Bool.not_eq_false] at hc
  obtain ⟨a, b, rfl⟩ := (hasOccur_iff _ s).1 hc
  exact h (by simp)

theorem hasOccur_append_left (x y s : Str) (h : hasOccur (x ++ y) s = true) :
    hasOccur x s = true := by
  obtain ⟨a, b, rfl⟩ := (hasOccur_iff _ s).1 h
  exact (hasOccur_iff x _).2 ⟨a, y ++ b, by simp⟩

theorem hasOccur_take (pat s : Str) (n : Nat) (h : hasOccur pat s = false) :
    hasOccur pat (s.take n) = false := by
  by_contra hc
  simp only [Bool.not_eq_false] at hc
  obtain ⟨a, b, he⟩ := (hasOccur_iff _ _).1 hc
  rw [Bool.eq_false_iff] at h
  exact h ((hasOccur_iff _ _).2 ⟨a, b ++ s.drop n, by
    conv_lhs => rw [← List.take_append_drop n s]
    rw [he]; simp⟩)

theorem hasOccur_drop (pat s : Str) (n : Nat) (h : hasOccur pat s = false) :
    hasOccur pat (s.drop n) = false := by
  by_contra hc
  simp only [Bool.not_eq_false] at hc
  obtain ⟨a, b, he⟩ := (hasOccur_iff _ _).1 hc
  rw [Bool.eq_false_iff] at h
  exact h ((hasOccur_iff _ _).2 ⟨s.take n ++ a, b, by
    conv_lhs => rw [← List.take_append_drop n s]
    rw [he]; simp⟩)

theorem fenceBare_eq : fenceBare = tick :: tick :: tick :: [] := by decide

theorem fenceJson_eq : fenceJson = fenceBare ++ tagJson := by decide

theorem isPref_cons_eq (m c : Char) (ps r : Str) :
    isPref (m :: ps) (c :: r) = ((m == c) && isPref ps r) := rfl

theorem isPref_single (m c : Char) (r : Str) : isPref [m] (c :: r) = (m == c) := by
  simp [isPref]

theorem isPref_two_of_one (r : Str) (h : isPref [tick] r = false) :
    isPref [tick, tick] r = false := by
  match r with
  | [] => rfl
  | d :: r' =>
    rw [isPref_single] at h
    rw [isPref_cons_eq, h, Bool.false_and]

theorem noTick_one (s : Str) (h : isPref [tick] s = false) :
    isPref [tick] (removeAll fenceBare s) = false := by
  match s with
  | [] => rfl
  | c :: r =>
    rw [isPref_single, beq_eq_false_iff_ne] at h
    have hb : isPref fenceBare (c :: r) = false := by
      rw [fenceBare_eq]
      exact isPref_head_ne tick _ _ (by simp; exact fun hc => h hc.symm)
    rw [removeAll_cons_neg _ _ _ hb, isPref_single, beq_eq_false_iff_ne]
    exact h

theorem noTick_two (s : Str) (h : isPref [tick, tick] s = false) :
    isPref [tick, tick] (removeAll fenceBare s) = false := by
  match s with
  | [] => rfl
  | c :: r =>
    by_cases hc : c = tick
    · subst hc
      rw [isPref_cons_eq, beq_self_eq_true, Bool.true_and] at h
      have hb : isPref fenceBare (tick :: r) = false := by
        rw [fenceBare_eq, isPref_cons_eq, beq_self_eq_true, Bool.true_and]
        exact isPref_two_of_one r h
      rw [removeAll_cons_neg _ _ _ hb, isPref_cons_eq, beq_self_eq_true, Bool.true_and]
      exact noTick_one r h
    · have hb : isPref fenceBare (c :: r) = false := by
        rw [fenceBare_eq]
        exact isPref_head_ne tick _ _
          (by simp only [List.head?_cons, ne_eq, Option.some.injEq]; exact hc)
      rw [removeAll_cons_neg _ _ _ hb, isPref_cons_eq,
        beq_eq_false_iff_ne.2 (fun hcc => hc hcc.symm), Bool.false_and]

theorem noTriple : ∀ (n : Nat) (s : Str), s.length ≤ n →
    hasOccur fenceBare (removeAll fenceBare s) = false := by
  intro n
  induction n with
  | zero =>
    intro s hs
    have : s = [] := List.length_eq_zero.mp (Nat.le_zero.mp hs)
    subst this
    rfl
  | succ n ih =>
    intro s hs
    match s with
    | [] => rfl
    | c :: r =>
      by_cases h : isPref fenceBare (c :: r) = true
      · rw [removeAll_cons_pos _ _ _ h]
        exact ih _ (by simp [List.length_drop] at hs ⊢; omega)
      · have h' : isPref fenceBare (c :: r) = false := Bool.not_eq_true _ ▸ h
        rw [removeAll_cons_neg _ _ _ h']
        have hr : hasOccur fenceBare (removeAll fenceBare r) = false :=
          ih r (by simp at hs; omega)
        have hp : isPref fenceBare (c :: removeAll fenceBare r) = false := by
          by_cases hc : c = tick
          · subst hc
            rw [fenceBare_eq, isPref_cons_eq, beq_self_eq_true, Bool.true_and] at h' ⊢
            exact noTick_two r h'
          · rw [fenceBare_eq]
            exact isPref_head_ne tick _ _
              (by simp only [List.head?_cons, ne_eq, Option.some.injEq]; exact hc)
        simp only [hasOccur, hp, hr, Bool.or_self]

theorem noOccur_fj_of_noTriple (s : Str) (h : hasOccur fenceBare s = false) :
    hasOccur fenceJson s = false := by
  by_contra hc
  simp only [Bool.not_eq_false] at hc
  rw [Bool.eq_false_iff] at h
  exact h (hasOccur_append_left fenceBare tagJson s (fenceJson_eq ▸ hc))

theorem cleanFences_id_of_noTriple (u : Str) (h : hasOccur fenceBare u = false) :
    cleanFences u = u := by
  unfold cleanFences
  rw [removeAll_of_noOccur _ _ (noOccur_fj_of_noTriple u h), removeAll_of_noOccur _ _ h]

theorem cleanFences_noTriple (t : Str) :
    hasOccur fenceBare (cleanFences t) = false :=
  noTriple (removeAll fenceJson t).length _ (Nat.le_refl _)

theorem hasOccur_sliceBraces (pat s : Str) (h : hasOccur pat s = false) :
    hasOccur pat (sliceBraces s) = false := by
  unfold sliceBraces
  rcases hf : firstIdx openBrace s with _ | i <;>
    rcases hg : lastIdx closeBrace s with _ | j <;>
      simp only
  · exact h
  · exact h
  · exact h
  · exact hasOccur_drop _ _ _ (hasOccur_take _ _ _ h)

theorem firstIdx_decomp (ch : Char) : ∀ (s : Str) (i : Nat), firstIdx ch s = some i →
    ∃ a b, s = a ++ ch :: b ∧ a.length = i ∧ ch ∉ a
  | [], i, h => by simp [firstIdx] at h
  | c :: r, i, h => by
    by_cases hc : c = ch
    · subst hc
      simp only [firstIdx, if_true] at h
      obtain rfl : (0 : Nat) = i := Option.some.inj h
      exact ⟨[], r, rfl, rfl, by simp⟩
    · simp only [firstIdx, hc, if_false, Option.map_eq_some'] at h
      obtain ⟨i', hi', rfl⟩ := h
      obtain ⟨a, b, rfl, rfl, hn⟩ := firstIdx_decomp ch r i' hi'
      exact ⟨c :: a, b, rfl, rfl, by
        simp only [List.mem_cons, not_or]
        exact ⟨fun hcc => hc hcc.symm, hn⟩⟩

theorem firstIdx_none_iff (ch : Char) : ∀ (s : Str), firstIdx ch s = none ↔ ch ∉ s
  | [] => by simp [firstIdx]
  | c :: r => by
    by_cases hc : c = ch
    · subst hc
      simp only [firstIdx, if_pos rfl, List.mem_cons, not_or]
      constructor
      · exact fun h => Option.noConfusion h
      · exact fun h => absurd trivial h.1
    · simp only [firstIdx, hc, if_false, Option.map_eq_none', List.mem_cons, not_or,
        firstIdx_none_iff ch r]
      constructor
      · exact fun h => ⟨fun hcc => hc hcc.symm, h⟩
      · exact fun h => h.2

theorem firstIdx_append_cons (ch : Char) : ∀ (a b : Str), ch ∉ a →
    firstIdx ch (a ++ ch :: b) = some a.length
  | [], b, _ => by simp [firstIdx]
  | c :: a', b, h => by
    have hc : ¬ c = ch := fun hcc => h (hcc ▸ List.mem_cons_self c a')
    have ih := firstIdx_append_cons ch a' b (fun hm => h (List.mem_cons_of_mem c hm))
    have step : firstIdx ch ((c :: a') ++ ch :: b) =
        (firstIdx ch (a' ++ ch :: b)).map (· + 1) := by
      show (if c = ch then some 0 else (firstIdx ch (a' ++ ch :: b)).map (· + 1)) = _
      rw [if_neg hc]
    rw [step, ih]
    rfl

theorem lastIdx_none_iff (ch : Char) : ∀ (s : Str), lastIdx ch s = none ↔ ch ∉ s
  | [] => by simp [lastIdx]
  | c :: r => by
    rcases hl : lastIdx ch r with _ | k
    · have hr : ch ∉ r := (lastIdx_none_iff ch r).1 hl
      by_cases hc : c = ch
      · subst hc
        simp [lastIdx, hl]
      · simp only [lastIdx, hl, hc, if_false, List.mem_cons, not_or]
        constructor
        · exact fun _ => ⟨fun hcc => hc hcc.symm, hr⟩
        · exact fun _ => trivial
    · have hr : ch ∈ r := by
        by_contra hm
        rw [(lastIdx_none_iff ch r).2 hm] at hl
        exact Option.noConfusion hl
      simp only [lastIdx, hl, List.mem_cons]
      constructor
      · exact fun h => Option.noConfusion h
      · exact fun h => absurd (Or.inr hr) h

theorem lastIdx_decomp (ch : Char) : ∀ (s : Str) (j : Nat), lastIdx ch s = some j →
    ∃ a b, s = a ++ ch :: b ∧ a.length = j ∧ ch ∉ b
  | [], j, h => by simp [lastIdx] at h
  | c :: r, j, h => by
    rcases hl : lastIdx ch r with _ | k
    · by_cases hc : c = ch
      · subst hc
        simp only [lastIdx, hl, if_true] at h
        obtain rfl : (0 : Nat) = j := Option.some.inj h
        exact ⟨[], r, rfl, rfl, (lastIdx_none_iff c r).1 hl⟩
      · simp only [lastIdx, hl, hc, if_false] at h
        exact Option.noConfusion h
    · simp only [lastIdx, hl] at h
      obtain rfl : k + 1 = j := Option.some.inj h
      obtain ⟨a, b, rfl, rfl, hn⟩ := lastIdx_decomp ch r k hl
      exact ⟨c :: a, b, rfl, rfl, hn⟩

theorem lastIdx_append_cons (ch : Char) : ∀ (a b : Str), ch ∉ b →
    lastIdx ch (a ++ ch :: b) = some a.length
  | [], b, h => by
    rw [List.nil_append]
    show (match lastIdx ch b with
      | some k => some (k + 1)
      | none => if ch = ch then some 0 else none) = some ([] : Str).length
    rw [(lastIdx_none_iff ch b).2 h]
    exact if_pos rfl
  | c :: a', b, h => by
    have ih := lastIdx_append_cons ch a' b h
    have step : lastIdx ch ((c :: a') ++ ch :: b) =
        match lastIdx ch (a' ++ ch :: b) with
        | some k => some (k + 1)
        | none => if c = ch then some 0 else none := rfl
    rw [step, ih]
    rfl

theorem substringJS_le (s : Str) (a b : Nat) (h : a ≤ b) :
    substringJS s a b = (s.take b).drop a := by
  unfold substringJS
  rw [Nat.max_eq_right h, Nat.min_eq_left h]

theorem substringJS_ge (s : Str) (a b : Nat) (h : b ≤ a) :
    substringJS s a b = (s.take a).drop b := by
  unfold substringJS
  rw [Nat.max_eq_left h, Nat.min_eq_right h]

theorem sliceBraces_eq_some (s : Str) (i j : Nat) (hf : firstIdx openBrace s = some i)
    (hg : lastIdx closeBrace s = some j) : sliceBraces s = substringJS s i (j + 1) := by
  simp only [sliceBraces, hf, hg]

theorem sliceBraces_id_first_none (s : Str) (hf : firstIdx openBrace s = none) :
    sliceBraces s = s := by
  rcases hg : lastIdx closeBrace s with _ | j <;> simp only [sliceBraces, hf, hg]

theorem sliceBraces_id_last_none (s : Str) (hg : lastIdx closeBrace s = none) :
    sliceBraces s = s := by
  rcases hf : firstIdx openBrace s with _ | i <;> simp only [sliceBraces, hf, hg]

theorem sliceBraces_idem (s : Str) : sliceBraces (sliceBraces s) = sliceBraces s := by
  rcases hf : firstIdx openBrace s with _ | i
  · have h := sliceBraces_id_first_none s hf
    rw [h]
    exact h
  · rcases hg : lastIdx closeBrace s with _ | j
    · have h := sliceBraces_id_last_none s hg
      rw [h]
      exact h
    · have hs : sliceBraces s = substringJS s i (j + 1) := sliceBraces_eq_some s i j hf hg
      obtain ⟨a1, b1, he1, hl1, hn1⟩ := firstIdx_decomp openBrace s i hf
      obtain ⟨a2, b2, he2, hl2, hn2⟩ := lastIdx_decomp closeBrace s j hg
      rcases Nat.lt_or_ge j i with hij | hij
      · have hu : substringJS s i (j + 1) = List.drop (j + 1) a1 := by
          rw [substringJS_ge _ _ _ (Nat.succ_le_of_lt hij), he1, List.take_left' hl1]
        have hnu : openBrace ∉ List.drop (j + 1) a1 :=
          fun hm => hn1 (List.drop_subset _ _ hm)
        rw [hs, hu]
        exact sliceBraces_id_first_none _ ((firstIdx_none_iff _ _).2 hnu)
      · have htk : s.take (j + 1) = a2 ++ [closeBrace] := by
          rw [he2]
          have h1 : j + 1 = a2.length + 1 := by omega
          rw [h1, List.take_append]
          rfl
        have hu2 : substringJS s i (j + 1) = List.drop i a2 ++ [closeBrace] := by
          rw [substringJS_le s i (j + 1) (by omega), htk,
            List.drop_append_of_le_length (by omega)]
        have hu1 : substringJS s i (j + 1) = openBrace :: List.take (j - i) b1 := by
          rw [substringJS_le s i (j + 1) (by omega), he1]
          have h1 : j + 1 = a1.length + (j + 1 - i) := by omega
          rw [h1, List.take_append]
          have h2 : j + 1 - i = (j - i) + 1 := by omega
          rw [h2, List.take_succ_cons, List.drop_left' hl1]
        have hfu : firstIdx openBrace (substringJS s i (j + 1)) = some 0 := by
          rw [hu1]
          simp [firstIdx]
        have hgu : lastIdx closeBrace (substringJS s i (j + 1))
            = some (List.drop i a2).length := by
          rw [hu2]
          exact lastIdx_append_cons closeBrace (List.drop i a2) [] (by simp)
        rw [hs, sliceBraces_eq_some _ _ _ hfu hgu,
          substringJS_le _ _ _ (Nat.zero_le _), List.drop_zero]
        exact List.take_of_length_le (by rw [hu2]; simp)

theorem extract_slice_rerun (t : Str) :
    extractText (sliceBraces (cleanFences t)) = extractText t := by
  have hb := cleanFences_noTriple t
  unfold extractText
  rw [cleanFences_id_of_noTriple _ (hasOccur_sliceBraces _ _ hb), sliceBraces_idem]

theorem not_mem_append (c : Char) (x y : Str) (hx : c ∉ x) (hy : c ∉ y) :
    c ∉ x ++ y := by
  intro hm
  rcases List.mem_append.1 hm with h | h
  · exact hx h
  · exact hy h

theorem not_mem_cons (c d : Char) (x : Str) (hd : ¬ c = d) (hx : c ∉ x) :
    c ∉ d :: x := by
  intro hm
  rcases List.mem_cons.1 hm with h | h
  · exact hd h
  · exact hx h

theorem split_at_first (m : Char) : ∀ (x1 x2 p1 p2 : Str), x1 ++ p1 = x2 ++ p2 →
    m ∉ x1 → m ∉ x2 → p1.head? = some m → p2.head? = some m → x1 = x2 ∧ p1 = p2
  | [], [], p1, p2, he, _, _, _, _ => ⟨rfl, by simpa using he⟩
  | [], c :: x2', p1, p2, he, _, h2, hh1, _ => by
    exfalso
    rw [List.nil_append] at he
    rw [he] at hh1
    simp only [List.cons_append, List.head?_cons, Option.some.injEq] at hh1
    exact h2 (hh1 ▸ List.mem_cons_self c x2')
  | c :: x1', [], p1, p2, he, h1, _, _, hh2 => by
    exfalso
    rw [List.nil_append] at he
    rw [← he] at hh2
    simp only [List.cons_append, List.head?_cons, Option.some.injEq] at hh2
    exact h1 (hh2 ▸ List.mem_cons_self c x1')
  | c1 :: x1', c2 :: x2', p1, p2, he, h1, h2, hh1, hh2 => by
    simp only [List.cons_append, List.cons.injEq] at he
    obtain ⟨rfl, he'⟩ := he
    obtain ⟨rfl, rfl⟩ := split_at_first m x1' x2' p1 p2 he'
      (fun hm => h1 (List.mem_cons_of_mem c1 hm))
      (fun hm => h2 (List.mem_cons_of_mem c1 hm)) hh1 hh2
    exact ⟨rfl, rfl⟩

theorem count_tick_fenceBare : List.count tick fenceBare = 3 := by decide

theorem count_tick_fenceJson : List.count tick fenceJson = 3 := by decide

/-- No occurrence of the json fence in a string consisting of a
backtick-free part, one bare fence, and a backtick-free tail that does
not continue with the `json` tag. -/
theorem noOccur_fj_around (a b : Str) (ha : tick ∉ a) (hb : tick ∉ b)
    (hj : isPref tagJson b = false) :
    hasOccur fenceJson (a ++ (fenceBare ++ b)) = false := by
  by_contra hc
  simp only [Bool.not_eq_false] at hc
  obtain ⟨x, y, he⟩ := (hasOccur_iff _ _).1 hc
  rw [List.append_assoc] at he
  have hcl : List.count tick (a ++ (fenceBare ++ b)) = 3 := by
    rw [List.count_append, List.count_append, List.count_eq_zero.2 ha,
      List.count_eq_zero.2 hb, count_tick_fenceBare]
  have hcr : List.count tick (x ++ (fenceJson ++ y)) =
      List.count tick x + (3 + List.count tick y) := by
    rw [List.count_append, List.count_append, count_tick_fenceJson]
  rw [he, hcr] at hcl
  have hx : tick ∉ x := List.count_eq_zero.1 (by omega)
  have hy : tick ∉ y := List.count_eq_zero.1 (by omega)
  have hhead1 : (fenceBare ++ b).head? = some tick := by
    rw [fenceBare_eq]
    rfl
  have hhead2 : (fenceJson ++ y).head? = some tick := by
    rw [fenceJson_eq, fenceBare_eq]
    rfl
  obtain ⟨-, heq⟩ := split_at_first tick a x (fenceBare ++ b) (fenceJson ++ y)
    he ha hx hhead1 hhead2
  rw [fenceJson_eq, List.append_assoc] at heq
  have hb2 : b = tagJson ++ y := List.append_cancel_left heq
  have htr : isPref tagJson b = true := by
    rw [hb2]
    exact (isPref_iff _ _).2 ⟨y, rfl⟩
  rw [htr] at hj
  exact Bool.noConfusion hj

theorem fj_cons : fenceJson = tick :: "``json".data := by decide

theorem tb_cons : fenceBare = tick :: "``".data := by decide

theorem tagJson_cons : tagJson = 'j' :: "son".data := by decide

theorem removeAll_fj_clean (a rest : Str) (h : tick ∉ a) :
    removeAll fenceJson (a ++ rest) = a ++ removeAll fenceJson rest := by
  rw [fj_cons]
  exact removeAll_append_clean _ _ _ _ h

theorem removeAll_fj_self (rest : Str) :
    removeAll fenceJson (fenceJson ++ rest) = removeAll fenceJson rest := by
  rw [fj_cons]
  exact removeAll_self_append _ _ _

theorem removeAll_tb_clean (a rest : Str) (h : tick ∉ a) :
    removeAll fenceBare (a ++ rest) = a ++ removeAll fenceBare rest := by
  rw [tb_cons]
  exact removeAll_append_clean _ _ _ _ h

theorem removeAll_tb_self (rest : Str) :
    removeAll fenceBare (fenceBare ++ rest) = removeAll fenceBare rest := by
  rw [tb_cons]
  exact removeAll_self_append _ _ _

theorem hasOccur_tb_noTick (s : Str) (h : tick ∉ s) : hasOccur fenceBare s = false := by
  rw [tb_cons]
  exact hasOccur_false_of_not_mem _ _ _ h

theorem clean_wrapped (pre p post : Str) (hpre : tick ∉ pre) (hp : tick ∉ p)
    (hpost : tick ∉ post) :
    cleanFences (pre ++ (fenceJson ++ ('\n' :: (p ++ ('\n' :: (fenceBare ++ ('\n' :: post)))))))
      = pre ++ ('\n' :: (p ++ ('\n' :: ('\n' :: post)))) := by
  have hmid : tick ∉ ('\n' :: (p ++ ['\n'])) :=
    not_mem_cons _ _ _ (by decide) (not_mem_append _ _ _ hp (by decide))
  have hnb : tick ∉ ('\n' :: post) := not_mem_cons _ _ _ (by decide) hpost
  have hjn : isPref tagJson ('\n' :: post) = false := by
    rw [tagJson_cons, isPref_cons_eq, show ('j' == '\n') = false from by decide,
      Bool.false_and]
  have hshape : ('\n' :: (p ++ ('\n' :: (fenceBare ++ ('\n' :: post)))))
      = ('\n' :: (p ++ ['\n'])) ++ (fenceBare ++ ('\n' :: post)) := by
    simp [List.append_assoc]
  have pass1 : removeAll fenceJson
      (pre ++ (fenceJson ++ ('\n' :: (p ++ ('\n' :: (fenceBare ++ ('\n' :: post)))))))
      = pre ++ ('\n' :: (p ++ ('\n' :: (fenceBare ++ ('\n' :: post))))) := by
    rw [removeAll_fj_clean _ _ hpre, removeAll_fj_self, hshape,
      removeAll_of_noOccur _ _ (noOccur_fj_around _ _ hmid hnb hjn), ← hshape]
  have pass2 : removeAll fenceBare
      (pre ++ ('\n' :: (p ++ ('\n' :: (fenceBare ++ ('\n' :: post))))))
      = pre ++ ('\n' :: (p ++ ('\n' :: ('\n' :: post)))) := by
    rw [removeAll_tb_clean _ _ hpre, hshape, removeAll_tb_clean _ _ hmid,
      removeAll_tb_self, removeAll_of_noOccur _ _ (hasOccur_tb_noTick _ hnb)]
    simp [List.append_assoc]
  unfold cleanFences
  rw [pass1, pass2]

theorem extract_wrapped (pre pmid post : Str) (hpre : tick ∉ pre) (hpm : tick ∉ pmid)
    (hpost : tick ∉ post) (hbpre : openBrace ∉ pre) (hbpost : closeBrace ∉ post) :
    extractText (pre ++ (fenceJson ++ ('\n' :: ((openBrace :: (pmid ++ [closeBrace]))
        ++ ('\n' :: (fenceBare ++ ('\n' :: post)))))))
      = extractText (openBrace :: (pmid ++ [closeBrace])) := by
  have hptick : tick ∉ (openBrace :: (pmid ++ [closeBrace])) :=
    not_mem_cons _ _ _ (by decide) (not_mem_append _ _ _ hpm (by decide))
  have hc := clean_wrapped pre (openBrace :: (pmid ++ [closeBrace])) post hpre hptick hpost
  unfold extractText
  rw [hc, cleanFences_id_of_noTriple _ (hasOccur_tb_noTick _ hptick)]
  have hshape1 : pre ++ ('\n' :: ((openBrace :: (pmid ++ [closeBrace]))
        ++ ('\n' :: ('\n' :: post))))
      = (pre ++ ['\n']) ++ (openBrace :: ((pmid ++ [closeBrace])
        ++ ('\n' :: ('\n' :: post)))) := by
    simp [List.append_assoc]
  have hf1 : firstIdx openBrace (pre ++ ('\n' :: ((openBrace :: (pmid ++ [closeBrace]))
        ++ ('\n' :: ('\n' :: post))))) = some (pre.length + 1) := by
    rw [hshape1, firstIdx_append_cons _ _ _
      (not_mem_append _ _ _ hbpre (by decide))]
    simp only [List.length_append, List.length_cons, List.length_nil, Option.some.injEq]
    try omega
  have hncb : closeBrace ∉ ('\n' :: ('\n' :: post)) :=
    not_mem_cons _ _ _ (by decide) (not_mem_cons _ _ _ (by decide) hbpost)
  have hshape2 : pre ++ ('\n' :: ((openBrace :: (pmid ++ [closeBrace]))
        ++ ('\n' :: ('\n' :: post))))
      = (pre ++ ('\n' :: (openBrace :: pmid))) ++ (closeBrace :: ('\n' :: ('\n' :: post))) := by
    simp [List.append_assoc]
  have hg1 : lastIdx closeBrace (pre ++ ('\n' :: ((openBrace :: (pmid ++ [closeBrace]))
        ++ ('\n' :: ('\n' :: post))))) = some (pre.length + (pmid.length + 2)) := by
    rw [hshape2, lastIdx_append_cons _ _ _ hncb]
    simp only [List.length_append, List.length_cons, List.length_nil, Option.some.injEq]
    try omega
  rw [sliceBraces_eq_some _ _ _ hf1 hg1]
  have hsub : substringJS (pre ++ ('\n' :: ((openBrace :: (pmid ++ [closeBrace]))
        ++ ('\n' :: ('\n' :: post))))) (pre.length + 1)
        (pre.length + (pmid.length + 2) + 1) = openBrace :: (pmid ++ [closeBrace]) := by
    rw [substringJS_le _ _ _ (by omega)]
    have hshape3 : pre ++ ('\n' :: ((openBrace :: (pmid ++ [closeBrace]))
          ++ ('\n' :: ('\n' :: post))))
        = (pre ++ ('\n' :: (openBrace :: (pmid ++ [closeBrace]))))
          ++ ('\n' :: ('\n' :: post)) := by
      simp [List.append_assoc]
    rw [hshape3, List.take_left' (by
      simp only [List.length_append, List.length_cons, List.length_nil]
      omega)]
    have hshape4 : pre ++ ('\n' :: (openBrace :: (pmid ++ [closeBrace])))
        = (pre ++ ['\n']) ++ (openBrace :: (pmid ++ [closeBrace])) := by
      simp [List.append_assoc]
    rw [hshape4, List.drop_left' (by simp)]
  rw [hsub]
  have hf2 : firstIdx openBrace (openBrace :: (pmid ++ [closeBrace])) = some 0 := by
    simp [firstIdx]
  have hg2 : lastIdx closeBrace (openBrace :: (pmid ++ [closeBrace]))
      = some (pmid.length + 1) := by
    have hsh : openBrace :: (pmid ++ [closeBrace])
        = (openBrace :: pmid) ++ (closeBrace :: []) := by simp
    rw [hsh, lastIdx_append_cons _ _ _ (by decide)]
    simp
  rw [sliceBraces_eq_some _ _ _ hf2 hg2, substringJS_le _ _ _ (by omega), List.drop_zero,
    List.take_of_length_le (by simp)]

theorem head_ne_tick_append (tag : Str) (c : Char) (X : Str) (htag : tick ∉ tag)
    (hc : ¬ c = tick) : (tag ++ c :: X).head? ≠ some tick := by
  match tag with
  | [] =>
    rw [List.nil_append, List.head?_cons]
    exact fun h => hc (Option.some.inj h)
  | d :: tag' =>
    rw [List.cons_append, List.head?_cons]
    exact fun h => htag (by rw [Option.some.inj h]; exact List.mem_cons_self _ _)

theorem clean_json_fence (s : Str) (hs : tick ∉ s) :
    cleanFences (fenceJson ++ ('\n' :: (s ++ ('\n' :: fenceBare))))
      = '\n' :: (s ++ ['\n']) := by
  have ha : tick ∉ ('\n' :: (s ++ ['\n'])) :=
    not_mem_cons _ _ _ (by decide) (not_mem_append _ _ _ hs (by decide))
  have hshape : ('\n' :: (s ++ ('\n' :: fenceBare)))
      = ('\n' :: (s ++ ['\n'])) ++ (fenceBare ++ ([] : Str)) := by
    simp [List.append_assoc]
  have hno : hasOccur fenceJson ('\n' :: (s ++ ('\n' :: fenceBare))) = false := by
    rw [hshape]
    exact noOccur_fj_around _ _ ha (by decide) (by decide)
  have hshape2 : ('\n' :: (s ++ ('\n' :: fenceBare)))
      = ('\n' :: (s ++ ['\n'])) ++ fenceBare := by
    simp [List.append_assoc]
  unfold cleanFences
  rw [removeAll_fj_self, removeAll_of_noOccur _ _ hno, hshape2,
    removeAll_tb_clean _ _ ha, show removeAll fenceBare fenceBare = [] from by decide,
    List.append_nil]

theorem clean_other_fence (s tag : Str) (hs : tick ∉ s) (htag : tick ∉ tag)
    (hjt : isPref tagJson tag = false) :
    cleanFences (fenceBare ++ (tag ++ ('\n' :: (s ++ ('\n' :: fenceBare)))))
      = tag ++ ('\n' :: (s ++ ['\n'])) := by
  have ha : tick ∉ (tag ++ ('\n' :: (s ++ ['\n']))) :=
    not_mem_append _ _ _ htag
      (not_mem_cons _ _ _ (by decide) (not_mem_append _ _ _ hs (by decide)))
  have hshape : (tag ++ ('\n' :: (s ++ ('\n' :: fenceBare))))
      = (tag ++ ('\n' :: (s ++ ['\n']))) ++ (fenceBare ++ ([] : Str)) := by
    simp [List.append_assoc]
  have hrest : hasOccur fenceJson (tag ++ ('\n' :: (s ++ ('\n' :: fenceBare)))) = false := by
    rw [hshape]
    exact noOccur_fj_around _ _ ha (by decide) (by decide)
  have hhead : (tag ++ ('\n' :: (s ++ ('\n' :: fenceBare)))).head? ≠ some tick :=
    head_ne_tick_append tag '\n' _ htag (by decide)
  have hW : fenceBare ++ (tag ++ ('\n' :: (s ++ ('\n' :: fenceBare))))
      = tick :: (tick :: (tick :: (tag ++ ('\n' :: (s ++ ('\n' :: fenceBare)))))) := by
    rw [fenceBare_eq]
    rfl
  have f1 : isPref fenceJson
      (tick :: (tick :: (tick :: (tag ++ ('\n' :: (s ++ ('\n' :: fenceBare)))))))
      = false := by
    rw [← hW, fenceJson_eq, isPref_append_both]
    exact isPref_stop '\n' tagJson tag _ (by decide) hjt
  have f2 : isPref fenceJson
      (tick :: (tick :: (tag ++ ('\n' :: (s ++ ('\n' :: fenceBare)))))) = false := by
    rw [show fenceJson = tick :: (tick :: (tick :: tagJson)) from by decide,
      isPref_cons_eq, isPref_cons_eq, beq_self_eq_true, Bool.true_and, Bool.true_and]
    exact isPref_head_ne tick tagJson _ hhead
  have f3 : isPref fenceJson
      (tick :: (tag ++ ('\n' :: (s ++ ('\n' :: fenceBare))))) = false := by
    rw [show fenceJson = tick :: (tick :: (tick :: tagJson)) from by decide,
      isPref_cons_eq, beq_self_eq_true, Bool.true_and]
    exact isPref_head_ne tick _ _ hhead
  have hno : hasOccur fenceJson
      (fenceBare ++ (tag ++ ('\n' :: (s ++ ('\n' :: fenceBare))))) = false := by
    rw [hW]
    simp only [hasOccur, f1, f2, f3, hrest, Bool.or_self, Bool.false_or, Bool.or_false]
  have hshape2 : (tag ++ ('\n' :: (s ++ ('\n' :: fenceBare))))
      = (tag ++ ('\n' :: (s ++ ['\n']))) ++ fenceBare := by
    simp [List.append_assoc]
  unfold cleanFences
  rw [removeAll_of_noOccur _ _ hno, removeAll_tb_self, hshape2,
    removeAll_tb_clean _ _ ha, show removeAll fenceBare fenceBare = [] from by decide,
    List.append_nil]

theorem mem_removeAll (pat : Str) : ∀ (n : Nat) (s : Str), s.length ≤ n →
    ∀ c, c ∈ removeAll pat s → c ∈ s := by
  intro n
  induction n with
  | zero =>
    intro s hs c
    have : s = [] := List.length_eq_zero.mp (Nat.le_zero.mp hs)
    subst this
    exact fun h => h
  | succ n ih =>
    intro s hs c hmem
    match s with
    | [] => exact hmem
    | d :: r =>
      by_cases h : isPref pat (d :: r) = true
      · rw [removeAll_cons_pos _ _ _ h] at hmem
        have := ih _ (by simp [List.length_drop] at hs ⊢; omega) c hmem
        exact List.mem_cons_of_mem d (List.drop_subset _ r this)
      · rw [removeAll_cons_neg _ _ _ (Bool.not_eq_true _ ▸ h)] at hmem
        rcases List.mem_cons.mp hmem with rfl | hmem'
        · exact List.mem_cons_self _ _
        · exact List.mem_cons_of_mem d (ih r (by simp at hs; omega) c hmem')

theorem extract_bracefree (t : Str) (h1 : openBrace ∉ t) :
    extractText t = jsonParse (cleanFences t) := by
  have hno1 : openBrace ∉ cleanFences t := by
    intro hm
    exact h1 (mem_removeAll fenceJson t.length t (Nat.le_refl _) _
      (mem_removeAll fenceBare (removeAll fenceJson t).length _ (Nat.le_refl _) _ hm))
  unfold extractText
  rw [sliceBraces_id_first_none _ ((firstIdx_none_iff _ _).2 hno1)]

/-- C1 (counterexample): on the input text `not a json answer` extraction
fails (`JSON.parse` throws), yet `analyzeUrl` surfaces no error: it
returns the hardcoded fallback object — a fabricated result with verdict
`Mixed/Uncertain` and confidence 0 — contradicting the claim that the
error is surfaced and that no synthetic result is substituted. -/
theorem C1_counterexample :
    extractJson (some "not a json answer".data) = none
    ∧ analyzeUrl (some "not a json answer".data) none = ⟨fallbackJson, none⟩
    ∧ getField fallbackJson "verdict".data = some (Json.str "Mixed/Uncertain".data)
    ∧ getField fallbackJson "confidenceScore".data = some (Json.num 0 0) :=
  ⟨rfl, rfl, rfl, rfl⟩

/-- C1 (amended): whenever extraction fails, `analyzeUrl` catches the
error and returns the hardcoded fallback result (verdict
`Mixed/Uncertain`, confidence 0) instead of surfacing a typed error. -/
theorem C1_fallback_on_failure (text : Option Str) (chunks : Option (List Chunk))
    (h : extractJson text = none) : analyzeUrl text chunks = ⟨fallbackJson, none⟩ := by
  unfold analyzeUrl
  rw [h]

/-- C1 (witness): the amended theorem at the concrete failing input. -/
theorem C1_fallback_on_failure_witness :
    extractJson (some "Sorry.".data) = none
    ∧ analyzeUrl (some "Sorry.".data) (some []) = ⟨fallbackJson, none⟩ :=
  ⟨rfl, C1_fallback_on_failure (some "Sorry.".data) (some []) rfl⟩

/-- C2 (counterexample): on a syntactically valid payload with
`verdict Robot` extraction succeeds (no `SchemaViolation` is raised)
and the unrecognized value is passed through in the returned result. -/
theorem C2_counterexample :
    (extractText robotPayload).isSome = true
    ∧ (extractText robotPayload).bind (fun j => getField j "verdict".data)
      = some (Json.str "Robot".data) :=
  ⟨rfl, rfl⟩

/-- C2 (amended): the extractor performs no runtime validation of
`verdict` (the enumeration exists only in the request-side
`analysisSchema`): the `Robot` payload parses successfully, the verdict
is passed through unchanged, and `analyzeUrl` returns it as a result. -/
theorem C2_robot_passthrough :
    extractText robotPayload = some robotJson
    ∧ getField robotJson "verdict".data = some (Json.str "Robot".data)
    ∧ analyzeUrl (some robotPayload) none = ⟨robotJson, none⟩ :=
  ⟨rfl, rfl, rfl⟩

/-- C3 (counterexample): a syntactically valid payload lacking
`confidenceScore` extracts successfully — no `SchemaViolation` naming
the field — and the returned result simply has the field absent. -/
theorem C3_counterexample :
    (extractText noScorePayload).isSome = true
    ∧ (extractText noScorePayload).bind (fun j => getField j "confidenceScore".data)
      = none :=
  ⟨rfl, rfl⟩

/-- C3 (amended): no required-field validation is performed: the payload
missing `confidenceScore` parses successfully and is returned as the
result with the field absent. -/
theorem C3_missing_field_passthrough :
    extractText noScorePayload = some noScoreJson
    ∧ getField noScoreJson "confidenceScore".data = none
    ∧ analyzeUrl (some noScorePayload) none = ⟨noScoreJson, none⟩ :=
  ⟨rfl, rfl, rfl⟩

/-- C4 (counterexample): the brace-free input `true` is itself valid
JSON, so extraction succeeds on it — refuting the claim that extraction
fails with `MalformedPayload` for every input with no brace. -/
theorem C4_counterexample :
    openBrace ∉ "true".data ∧ closeBrace ∉ "true".data
    ∧ extractText "true".data = some (Json.bool true) :=
  ⟨by decide, by decide, rfl⟩

/-- C4 (amended): for an input with no `\x7b` and no `\x7d` the whole
cleaned text becomes the parse candidate (no slicing occurs), so
extraction fails exactly when that cleaned text is not valid JSON. -/
theorem C4_braceless (t : Str) (h1 : openBrace ∉ t) (h2 : closeBrace ∉ t)
    (h3 : jsonParse (cleanFences t) = none) : extractText t = none := by
  rw [extract_bracefree t h1, h3]

/-- C4 (witness): the amended theorem at a concrete brace-free prose
input, on which extraction indeed fails. -/
theorem C4_braceless_witness : extractText "Sorry, I cannot help.".data = none :=
  C4_braceless "Sorry, I cannot help.".data (by decide) (by decide) rfl

/-- C5 (counterexample): a fence with language tag `python` is not
removed as a whole: only the backticks and the literal ```json` are
replaced, so the tag text `python` survives in the cleaned output,
contradicting "removes … with a language tag (any language tag …)". -/
theorem C5_counterexample :
    cleanFences "```python\n\x7b\x7d\n```".data = "python\n\x7b\x7d\n".data
    ∧ "python\n\x7b\x7d\n".data ≠ "\n\x7b\x7d\n".data :=
  ⟨rfl, by decide⟩

/-- C5 (amended): step 1 removes every occurrence of the literal
```json` marker and of the bare ```` ``` ```` marker, preserving the
enclosed content; a fence with any other language tag loses only its
backticks, leaving the tag text behind in the cleaned output. -/
theorem C5_fence_removal (s tag : Str) (hs : tick ∉ s) (htag : tick ∉ tag)
    (hjt : isPref tagJson tag = false) :
    cleanFences (fenceJson ++ ('\n' :: (s ++ ('\n' :: fenceBare)))) = '\n' :: (s ++ ['\n'])
    ∧ cleanFences (fenceBare ++ (tag ++ ('\n' :: (s ++ ('\n' :: fenceBare)))))
      = tag ++ ('\n' :: (s ++ ['\n'])) :=
  ⟨clean_json_fence s hs, clean_other_fence s tag hs htag hjt⟩

/-- C5 (witness): the amended theorem at concrete fenced inputs with the
`json` tag and with the `python` tag. -/
theorem C5_fence_removal_witness :
    cleanFences "```json\n\x7b\x7d\n```".data = "\n\x7b\x7d\n".data
    ∧ cleanFences "```python\n\x7b\x7d\n```".data = "python\n\x7b\x7d\n".data := by
  have h := C5_fence_removal "\x7b\x7d".data "python".data (by decide) (by decide) (by decide)
  constructor
  · rw [show "```json\n\x7b\x7d\n```".data
        = fenceJson ++ ('\n' :: ("\x7b\x7d".data ++ ('\n' :: fenceBare))) from by decide, h.1]
    decide
  · rw [show "```python\n\x7b\x7d\n```".data
        = fenceBare ++ ("python".data ++ ('\n' :: ("\x7b\x7d".data ++ ('\n' :: fenceBare))))
        from by decide, h.2]
    decide

/-- C6: on the text consisting of a json code fence enclosing exactly the
spec's example payload, with no grounding side-channel, extraction
succeeds and the result has `confidenceScore` 87, `verdict` `AI`,
`indicators` `[a, b]`, and no `sources` field. -/
theorem C6_extraction :
    analyzeUrl (some exampleFenced) none = ⟨exampleJson, none⟩
    ∧ getField exampleJson "confidenceScore".data = some (Json.num 87 0)
    ∧ getField exampleJson "verdict".data = some (Json.str "AI".data)
    ∧ getField exampleJson "indicators".data
      = some (Json.arr [Json.str "a".data, Json.str "b".data])
    ∧ getField exampleJson "sources".data = none :=
  ⟨rfl, rfl, rfl, rfl, rfl⟩

/-- C7: surrounding a well-formed JSON-object payload with
backtick-free, brace-free conversational prose before and after a json
code fence does not change the extraction result: all prose outside the
first `\x7b` and last `\x7d` is discarded. -/
theorem C7_prose_invariance (pre pmid post : Str) (h1 : tick ∉ pre)
    (h2 : openBrace ∉ pre) (h3 : tick ∉ pmid) (h4 : tick ∉ post)
    (h5 : closeBrace ∉ post) :
    extractText (pre ++ ("```json\n".data ++ ((openBrace :: (pmid ++ [closeBrace]))
        ++ ("\n```\n".data ++ post))))
      = extractText (openBrace :: (pmid ++ [closeBrace])) := by
  rw [show "```json\n".data = fenceJson ++ ['\n'] from by decide,
    show "\n```\n".data = '\n' :: (fenceBare ++ ['\n']) from by decide]
  have hsh : pre ++ ((fenceJson ++ ['\n']) ++ ((openBrace :: (pmid ++ [closeBrace]))
        ++ (('\n' :: (fenceBare ++ ['\n'])) ++ post)))
      = pre ++ (fenceJson ++ ('\n' :: ((openBrace :: (pmid ++ [closeBrace]))
        ++ ('\n' :: (fenceBare ++ ('\n' :: post)))))) := by
    simp [List.append_assoc]
  rw [hsh]
  exact extract_wrapped pre pmid post h1 h3 h4 h2 h5

set_option maxRecDepth 10000 in
/-- C7 (witness): the spec's concrete prose-wrapped example extracts to
the same result as the bare payload. -/
theorem C7_prose_invariance_witness :
    extractText exampleWrapped = extractText examplePayload := by
  rw [show exampleWrapped = "Sure, here is the analysis:\n".data
      ++ ("```json\n".data ++ ((openBrace :: (examplePayloadMid ++ [closeBrace]))
      ++ ("\n```\n".data ++ "Let me know if you need more.".data))) from by decide,
    show examplePayload = openBrace :: (examplePayloadMid ++ [closeBrace]) from by decide]
  exact C7_prose_invariance "Sure, here is the analysis:\n".data examplePayloadMid
    "Let me know if you need more.".data (by decide) (by decide) (by decide)
    (by decide) (by decide)

/-- C8: extraction is idempotent: when extraction of `t` succeeds, re-running
the pipeline on the already-extracted slice (the brace span of the cleaned
text) yields the same result. -/
theorem C8_idempotent (t : Str) (j : Json) (h : extractText t = some j) :
    extractText (sliceBraces (cleanFences t)) = some j :=
  (extract_slice_rerun t).trans h

/-- C8 (witness): idempotence at a concrete prose-wrapped input. -/
theorem C8_idempotent_witness :
    extractText (sliceBraces (cleanFences "x\x7b\"a\":1\x7d y".data))
      = some (Json.obj [("a".data, Json.num 1 0)]) :=
  C8_idempotent "x\x7b\"a\":1\x7d y".data (Json.obj [("a".data, Json.num 1 0)]) rfl

/-- C9 (counterexample): a grounding chunk whose web reference lacks a
uri is not skipped — it is mapped to a sources entry with no uri; and an
empty chunk list is still attached as `sources = []` (the empty array is
truthy in JavaScript), contradicting "skipped" and "only when
non-empty". -/
theorem C9_counterexample :
    mapChunksToSources [⟨some ⟨none, some "T".data⟩⟩] = [⟨none, "T".data⟩]
    ∧ (analyzeUrl (some "\x7b\x7d".data) (some [])).sources = some [] :=
  ⟨rfl, rfl⟩

/-- C9 (amended): on successful extraction of an object-like result,
`sources` is assigned exactly when the side-channel is present (even
when empty); each chunk with a defined web reference is mapped to a pair
keeping its (possibly absent) uri, with title defaulting to `Fuente`
when absent or empty; only chunks whose whole web reference is undefined
are dropped.  When the parsed result is a primitive (null, boolean,
number or string) and chunks are present, the strict-mode property
assignment throws and the `catch` returns the fallback instead.  The
claim's concrete instance holds. -/
theorem C9_sources_attach (text : Option Str) (chunks : List Chunk)
    (j : Json) (h : extractJson text = some j) :
    (jsObjectLike j = true →
      (analyzeUrl text (some chunks)).sources = some (mapChunksToSources chunks))
    ∧ (jsObjectLike j = false → analyzeUrl text (some chunks) = ⟨fallbackJson, none⟩)
    ∧ (analyzeUrl text none).sources = none
    ∧ mapChunksToSources [⟨some ⟨some "https://x".data, some "X".data⟩⟩, ⟨none⟩]
      = [⟨some "https://x".data, "X".data⟩] := by
  refine ⟨fun hobj => ?_, fun hobj => ?_, ?_, rfl⟩
  · unfold analyzeUrl
    rw [h]
    simp only [hobj, if_true]
  · unfold analyzeUrl
    rw [h]
    simp only [hobj, Bool.false_eq_true, if_false]
  · unfold analyzeUrl
    rw [h]

/-- C9 (witness): the amended theorem at the claim's concrete grounding
references, alongside a trivially successful extraction of an object. -/
theorem C9_sources_attach_witness :
    (analyzeUrl (some "\x7b\x7d".data)
        (some [⟨some ⟨some "https://x".data, some "X".data⟩⟩, ⟨none⟩])).sources
      = some [⟨some "https://x".data, "X".data⟩] := by
  have h := C9_sources_attach (some "\x7b\x7d".data)
    [⟨some ⟨some "https://x".data, some "X".data⟩⟩, ⟨none⟩] (Json.obj []) rfl
  rw [h.1 rfl]
  rfl

/-- C10: when the response text is empty or absent, every analyze
function substitutes the literal `\x7b\x7d`, parsing succeeds, no error is
raised, and the returned object has every `AnalysisResult` field absent. -/
theorem C10_empty_default :
    analyzeText none = Except.ok (Json.obj [])
    ∧ analyzeText (some []) = Except.ok (Json.obj [])
    ∧ analyzeImage none = Except.ok (Json.obj [])
    ∧ analyzeImage (some []) = Except.ok (Json.obj [])
    ∧ analyzeVideo none = Except.ok (Json.obj [])
    ∧ analyzeVideo (some []) = Except.ok (Json.obj [])
    ∧ analyzeUrl none none = ⟨Json.obj [], none⟩
    ∧ analyzeUrl (some []) none = ⟨Json.obj [], none⟩
    ∧ getField (Json.obj []) "isAiGenerated".data = none
    ∧ getField (Json.obj []) "confidenceScore".data = none
    ∧ getField (Json.obj []) "verdict".data = none
    ∧ getField (Json.obj []) "reasoning".data = none
    ∧ getField (Json.obj []) "indicators".data = none :=
  ⟨rfl, rfl, rfl, rfl, rfl, rfl, rfl, rfl, rfl, rfl, rfl, rfl, rfl⟩

end Verificador
